import Mathlib

/-! Verification of the Financial-Analyzer agentic RAG backend.

The JavaScript sources (backend/agenticWorkflow.js, backend/aiProcessor.js,
backend/strategies/singleAgentStrategy.js, the multi-agent strategy and the
RAG orchestrator) are shallowly embedded below.  JavaScript strings are
modelled as `List Char`; the string operations the code uses (trim, split,
replace, toLowerCase, startsWith, slice, join, regex match counting) are
defined on that representation.  Where the source meets only ASCII
metacharacters the embedding restricts the corresponding character classes
to ASCII.  LLM completions, embeddings and vector search are external
capabilities; they enter as explicit parameters (a completion text, a
similarity-search function), so every pipeline stage below is a pure
function of its inputs. -/

/-- JavaScript strings are modelled as lists of characters. -/
abbrev Str := List Char

/-- The whitespace characters of the JS regex class `\s` and of
`String.prototype.trim` (ASCII fragment: space, tab, newline, carriage
return, vertical tab, form feed). -/
def isWs (c : Char) : Bool :=
  c = ' ' || c = '\t' || c = '\n' || c = '\r' || c = '\x0b' || c = '\x0c'

/-- JS `trim()`: drop whitespace from both ends. -/
def trim (l : Str) : Str :=
  ((l.dropWhile isWs).reverse.dropWhile isWs).reverse

/-- Worker for `collapseWs`: `prevWs` records whether the previous character
was part of a whitespace run already emitted as one space. -/
def collapseWsGo (prevWs : Bool) : Str → Str
  | [] => []
  | c :: rest =>
    if isWs c then
      if prevWs then collapseWsGo true rest
      else ' ' :: collapseWsGo true rest
    else c :: collapseWsGo false rest

/-- JS `replace(/\s+/g, ' ')`: every maximal whitespace run becomes one
space. -/
def collapseWs (l : Str) : Str := collapseWsGo false l

/-- JS `split(sep)` for a one-character separator: `"".split` gives `[""]`,
adjacent separators give empty pieces. -/
def splitOnChar (sep : Char) : Str → List Str
  | [] => [[]]
  | c :: rest =>
    let ts := splitOnChar sep rest
    if c = sep then [] :: ts
    else (c :: ts.headD []) :: ts.tail

/-- Worker for `splitRuns`: `prevSep` records whether the previous character
belonged to the separator run being swallowed. -/
def splitRunsGo (sep : Char → Bool) (prevSep : Bool) : Str → List Str
  | [] => [[]]
  | c :: rest =>
    if sep c then
      if prevSep then splitRunsGo sep true rest
      else [] :: splitRunsGo sep true rest
    else
      let ts := splitRunsGo sep false rest
      (c :: ts.headD []) :: ts.tail

/-- JS `split(/[…]+/)`: a maximal run of separator characters is one
separator (so `"a..b"` splits into two pieces, not three). -/
def splitRuns (sep : Char → Bool) (l : Str) : List Str := splitRunsGo sep false l

/-- JS `Array.prototype.join` with a separator string. -/
def joinWith (sep : Str) : List Str → Str
  | [] => []
  | [p] => p
  | p :: q :: ps => p ++ sep ++ joinWith sep (q :: ps)

/-- Worker for `uniqueFirst`: `seen` is the set of elements already kept. -/
def uniqueFirstGo {α : Type} [DecidableEq α] (seen : List α) : List α → List α
  | [] => []
  | a :: l =>
    if a ∈ seen then uniqueFirstGo seen l
    else a :: uniqueFirstGo (a :: seen) l

/-- JS `Array.from(new Set(xs))`: keep the first occurrence of each
element, in order. -/
def uniqueFirst {α : Type} [DecidableEq α] (l : List α) : List α :=
  uniqueFirstGo [] l

/-- ASCII `toLowerCase` on one character. -/
def toLowerCh (c : Char) : Char :=
  if 'A' ≤ c ∧ c ≤ 'Z' then Char.ofNat (c.toNat + 32) else c

/-- ASCII `toUpperCase` on one character. -/
def toUpperCh (c : Char) : Char :=
  if 'a' ≤ c ∧ c ≤ 'z' then Char.ofNat (c.toNat - 32) else c

/-- JS `toLowerCase()` (ASCII fragment; the source only compares keys built
from the same function, so the restriction is inessential). -/
def toLowerStr (s : Str) : Str := s.map toLowerCh

/-- JS `toUpperCase()` (ASCII fragment). -/
def toUpperStr (s : Str) : Str := s.map toUpperCh

/-- Does `haystack` contain `needle` as a contiguous segment?  Used to state
that an error message names the allowed modes. -/
def containsSeg (needle haystack : Str) : Bool :=
  (List.range (haystack.length + 1)).any
    (fun i => (haystack.drop i).take needle.length = needle)

/-- Worker for `countOccs`: `fuel` bounds the number of scan steps.  Each
step either consumes the matched pattern (at least one character, since the
call sites guarantee a non-empty pattern) or advances one character, so
`fuel = haystack.length` never runs out. -/
def countOccsGo (needle : Str) : Nat → Str → Nat
  | 0, _ => 0
  | _, [] => 0
  | fuel + 1, c :: rest =>
    if needle ≠ [] ∧ (c :: rest).take needle.length = needle then
      1 + countOccsGo needle fuel ((c :: rest).drop needle.length)
    else countOccsGo needle fuel rest

/-- Number of non-overlapping occurrences of the (regex-escaped, hence
literal) pattern in the text, scanning left to right as a JS global regex
does.  Call sites guard against the empty pattern. -/
def countOccs (needle haystack : Str) : Nat :=
  countOccsGo needle haystack.length haystack

example : trim "  ab c  ".toList = "ab c".toList := by decide
example : collapseWs "a \t b".toList = "a b".toList := by decide
example : splitOnChar '\n' "a\n\nb".toList = ["a".toList, [], "b".toList] := by decide
example : splitRuns (fun c => c = '.' || c = '!' || c = '?') "a..b!".toList
    = ["a".toList, "b".toList, []] := by decide
example : uniqueFirst ["a".toList, "b".toList, "a".toList] = ["a".toList, "b".toList] := by decide
example : countOccs "ab".toList "xababx".toList = 2 := by decide
example : containsSeg "single".toList "Mode multi is not enabled".toList = false := by decide

/-! Conversation Ledger (agenticWorkflow.js: limitText,
formatConversationForPrompt, pushConversation).  The ISO timestamp the
source attaches to an entry is an external input here. -/

/-- One entry of the conversation ledger. -/
structure ConversationEntry where
  agent : Str
  content : Str
  timestamp : Str
deriving DecidableEq, Repr

/-- agenticWorkflow.js `limitText(text, maxLength)`: falsy (empty) text
gives the empty string; text within the limit passes unchanged; longer text
is cut at `maxLength` characters and suffixed with a three-character
ellipsis. -/
def limitText (text : Str) (maxLength : Nat := 4000) : Str :=
  if text = [] then []
  else if text.length ≤ maxLength then text
  else text.take maxLength ++ "...".toList

/-- agenticWorkflow.js `pushConversation(history, agent, content)`: append
an entry whose content is limited to 1200 characters, then drop entries
from the front until at most 24 remain. -/
def pushConversation (history : List ConversationEntry) (agent content ts : Str) :
    List ConversationEntry :=
  let cloned := history ++ [⟨agent, limitText content 1200, ts⟩]
  if 24 < cloned.length then cloned.drop (cloned.length - 24) else cloned

/-- JS `slice(-n)`: the last `n` elements (all of them when fewer). -/
def takeLast {α : Type} (n : Nat) (l : List α) : List α :=
  l.drop (l.length - n)

/-- The line `formatConversationForPrompt` renders for one entry:
an upper-cased agent label (or `[CONTEXT]`), a space, and the entry content
limited to 500 characters. -/
def entryLine (e : ConversationEntry) : Str :=
  (if e.agent ≠ [] then '[' :: toUpperStr e.agent ++ [']'] else "[CONTEXT]".toList)
    ++ ' ' :: limitText e.content 500

/-- agenticWorkflow.js `formatConversationForPrompt(history)`: the last 8
entries, one line each, joined with newlines; a fixed sentence when the
history is empty. -/
def formatConversationForPrompt (history : List ConversationEntry) : Str :=
  if history = [] then "No prior context available.".toList
  else joinWith ['\n'] ((takeLast 8 history).map entryLine)

/-! Formatter (agenticWorkflow.js: formatterAgent).  The pipeline mode is
the source's string `'report'` or `'question'`. -/

/-- The `lines` computation shared verbatim by formatterAgent's report mode
and multiAgentStrategy.js formatOutput: split on newlines, trim each line,
drop the blank ones. -/
def reportLines (content : Str) : List Str :=
  ((splitOnChar '\n' content).map trim).filter (fun l => l ≠ [])

/-- The bullet enforcement shared verbatim by formatterAgent and
formatOutput: `line.replace(/^•\s*/, '')` re-prefixed with a bullet and a
space when the line already starts with a bullet, plain prefixing
otherwise. -/
def bulletizeLine (line : Str) : Str :=
  if line.take 1 = ['•'] then '•' :: ' ' :: ((line.drop 1).dropWhile isWs)
  else '•' :: ' ' :: line

/-- agenticWorkflow.js `formatterAgent({mode, content})`.  Report mode:
split into trimmed non-blank lines, force a leading bullet on each,
deduplicate, re-join.  Question mode: collapse whitespace and trim. -/
def formatterAgent (mode content : Str) : Str :=
  if mode = "report".toList then
    joinWith ['\n'] (uniqueFirst ((reportLines content).map bulletizeLine))
  else trim (collapseWs content)

example : formatterAgent "report".toList "* foo".toList = "• * foo".toList := by decide
example : formatterAgent "report".toList "a\n\na\n• b".toList = "• a\n• b".toList := by decide
example : formatterAgent "question".toList "  a \n b ".toList = "a b".toList := by decide

/-! Validator (agenticWorkflow.js: validatorAgent).  The corrective
completion the source requests when issues are found is an external input:
`corrected` below stands for the text that single completion call returns. -/

/-- The markdown characters the validator and the strategies reject:
asterisk, hash, underscore, backtick. -/
def mdChars : List Char := ['*', '#', '_', Char.ofNat 96]

/-- The sentence-splitting class of validatorAgent's question mode. -/
def isSentenceEnd (c : Char) : Bool := c = '.' || c = '!' || c = '?'

/-- Question-mode sentence list: collapse whitespace, split on runs of
`.!?`, keep the truthy (non-empty) pieces. -/
def sentencePieces (content : Str) : List Str :=
  (splitRuns isSentenceEnd (collapseWs content)).filter (fun s => s ≠ [])

/-- agenticWorkflow.js validatorAgent's issue detection, in source order:
an emptiness check for both modes; report mode then checks bullets and
markdown, question mode checks the sentence count (1 to 4). -/
def validatorIssues (mode content : Str) : List Str :=
  let empties := if trim content = [] then ["Empty content generated.".toList] else []
  let more :=
    if mode = "report".toList then
      let lines := (splitOnChar '\n' content).filter (fun line => trim line ≠ [])
      (if lines.any (fun line => ¬ (trim line).take 2 = "• ".toList) then
        ["All lines must begin with bullet.".toList] else [])
      ++ (if (content.filter (fun c => c ≠ '•')).any (fun c => c ∈ mdChars) then
        ["Content must not use markdown formatting.".toList] else [])
    else
      let sentences := sentencePieces content
      if sentences.length < 1 ∨ 4 < sentences.length then
        ["Answer must be concise (2-3 sentences ideally).".toList] else []
  empties ++ more

/-- The validator's result: the (possibly corrected) content and the issue
list. -/
structure ValidatorResult where
  content : Str
  issues : List Str
deriving DecidableEq, Repr

/-- agenticWorkflow.js `validatorAgent`: when no issue is detected the
draft passes through with no completion call; otherwise the one corrective
completion's text replaces the draft, unexamined.  The `Nat` component
counts the completion calls the stage makes. -/
def validatorAgent (mode content corrected : Str) : ValidatorResult × Nat :=
  let issues := validatorIssues mode content
  if issues = [] then ({ content := content, issues := issues }, 0)
  else ({ content := corrected, issues := issues }, 1)

example : validatorIssues "report".toList "• a\n• b".toList = [] := by decide
example : (validatorAgent "report".toList "*x".toList "fix".toList).2 = 1 := by decide
example : sentencePieces "One. Two two! ".toList = ["One".toList, " Two two".toList, " ".toList] := by decide
example : sentencePieces " ".toList = [[' ']] := by decide

/-! Planner (agenticWorkflow.js: ensureJSON and plannerAgent's plan
resolution).  `JSON.parse` is the JS runtime's parser; it enters the
embedding as the parameter `parse`, which returns the parsed object (`none`
for a parse error, matching the try/catch that yields null).  A JSON object
need not carry every Plan field, so each field is an `Option`. -/

/-- The opening brace character. -/
def lbrace : Char := Char.ofNat 123

/-- The closing brace character. -/
def rbrace : Char := Char.ofNat 125

/-- JS `indexOf` for one character. -/
def indexOfChar (c : Char) : Str → Option Nat
  | [] => none
  | d :: rest => if d = c then some 0 else (indexOfChar c rest).map (· + 1)

/-- JS `lastIndexOf` for one character. -/
def lastIndexOfChar (c : Char) (l : Str) : Option Nat :=
  (indexOfChar c l.reverse).map (fun i => l.length - 1 - i)

/-- A Plan as parsed from completion output: a JSON object whose fields may
each be absent. -/
structure PlanJson where
  objective : Option Str
  retrievalQueries : Option (List Str)
  fallbackQueries : Option (List Str)
  analysisFocus : Option (List Str)
  subQuestions : Option (List Str)
  toolSuggestions : Option (List Str)
deriving DecidableEq, Repr

/-- agenticWorkflow.js `ensureJSON(text)`: locate the outermost brace span
and hand it to `JSON.parse` (the parameter `parse`); any failure — no
braces, or a parse error — yields `none` (the source's null). -/
def ensureJSON (parse : Str → Option PlanJson) (text : Str) : Option PlanJson :=
  match indexOfChar lbrace text, lastIndexOfChar rbrace text with
  | some start, some stop => parse ((text.take (stop + 1)).drop start)
  | _, _ => none

/-- agenticWorkflow.js plannerAgent's deterministic default plan, built
from the work-unit fields when the completion's JSON cannot be parsed. -/
def defaultPlan (mode sectionType companyName question : Str) : PlanJson where
  objective := some (if mode = "report".toList
    then "Summarize ".toList ++ sectionType ++ " insights for ".toList ++ companyName
    else "Answer the question using primary facts from ".toList ++ companyName
      ++ "'s financial document".toList)
  retrievalQueries := some (if mode = "report".toList
    then [companyName ++ ' ' :: sectionType ++ " section core themes".toList,
          companyName ++ ' ' :: sectionType ++ " highlights recent".toList]
    else [question, companyName ++ ' ' :: question])
  fallbackQueries := some (if mode = "report".toList
    then [companyName ++ ' ' :: sectionType ++ " risks".toList,
          companyName ++ ' ' :: sectionType ++ " forward guidance".toList]
    else [companyName ++ " details ".toList ++ question,
          companyName ++ " discussion ".toList ++ question])
  analysisFocus := some (if mode = "report".toList
    then ["Key talking points for ".toList ++ sectionType]
    else ["Provide direct answer grounded in evidence".toList])
  subQuestions := some (if mode = "report".toList then [] else [question])
  toolSuggestions := some ["numeric_summary".toList, "keyword_coverage".toList]

/-- agenticWorkflow.js plannerAgent, after the completion call: the parsed
plan when `ensureJSON` yields one, the default plan otherwise. -/
def resolvePlan (parse : Str → Option PlanJson) (mode sectionType companyName question : Str)
    (content : Str) : PlanJson :=
  match ensureJSON parse content with
  | some plan => plan
  | none => defaultPlan mode sectionType companyName question

/-! Researcher (agenticWorkflow.js: lexicalScore, lexicalSearch,
dedupeByContent, researcherAgent).  A retrieval-index document; the
semantic `vectorStore.similaritySearch(query, k)` capability enters as the
parameter `sim`. -/

/-- A chunk document: an id and its page content. -/
structure Doc where
  id : Str
  pageContent : Str
deriving DecidableEq, Repr

/-- agenticWorkflow.js `lexicalScore(text, keywords)`: lower-case the text,
and for each keyword (trimmed, lower-cased, skipped when empty) add the
number of its literal occurrences. -/
def lexicalScore (text : Str) (keywords : List Str) : Nat :=
  let lower := toLowerStr text
  keywords.foldl (fun score keyword =>
    let trimmed := toLowerStr (trim keyword)
    if trimmed = [] then score
    else score + countOccs trimmed lower) 0

/-- The keyword split of lexicalSearch: `split(/[,;\-]/)` (single
characters, not runs). -/
def isKeywordSep (c : Char) : Bool := c = ',' || c = ';' || c = '-'

/-- Worker for `splitAny` (same scheme as `splitOnChar`, with a character
class). -/
def splitAny (sep : Char → Bool) : Str → List Str
  | [] => [[]]
  | c :: rest =>
    let ts := splitAny sep rest
    if sep c then [] :: ts
    else (c :: ts.headD []) :: ts.tail

/-- Stable insertion into a score-descending list (ties keep earlier
elements first, as the JS stable `sort((a, b) => b.score - a.score)`
does). -/
def insertDesc (x : Doc × Nat) : List (Doc × Nat) → List (Doc × Nat)
  | [] => [x]
  | y :: ys => if y.2 ≤ x.2 then x :: y :: ys else y :: insertDesc x ys

/-- Stable sort by score, descending. -/
def sortDesc : List (Doc × Nat) → List (Doc × Nat)
  | [] => []
  | x :: xs => insertDesc x (sortDesc xs)

/-- agenticWorkflow.js `lexicalSearch(documents, queries, limit)`: split
every query into keyword tokens, score each document, keep the documents
with positive score, sort by score descending, truncate to `limit`. -/
def lexicalSearch (documents : List Doc) (queries : List Str) (limit : Nat := 4) : List Doc :=
  if documents = [] ∨ queries = [] then []
  else
    let keywords := queries.flatMap (fun q => splitAny isKeywordSep q)
    let scored := documents.map (fun doc => (doc, lexicalScore doc.pageContent keywords))
    ((sortDesc (scored.filter (fun e => 0 < e.2))).take limit).map (fun e => e.1)

/-- The dedup signature: the first 160 characters of a document's
content. -/
def docSig (d : Doc) : Str := d.pageContent.take 160

/-- Worker for `dedupeByContent`: `seen` is the set of signatures already
kept. -/
def dedupeGo (seen : List Str) : List Doc → List Doc
  | [] => []
  | d :: rest =>
    if docSig d ∈ seen then dedupeGo seen rest
    else d :: dedupeGo (docSig d :: seen) rest

/-- agenticWorkflow.js `dedupeByContent(docs)`: keep the first document for
each 160-character content signature. -/
def dedupeByContent (docs : List Doc) : List Doc := dedupeGo [] docs

/-- researcherAgent's document gathering: semantic top-4 per non-empty
retrieval query plus lexical top-4, deduplicated; when that set has fewer
than 3 documents and there are fallback queries, semantic top-3 per
fallback query plus lexical top-3 are appended and the whole set is
deduplicated again.  Absent plan fields default to empty arrays, as in the
source's destructuring. -/
def researcherCombined (sim : Str → Nat → List Doc) (documents : List Doc)
    (plan : PlanJson) : List Doc :=
  let retrievalQueries := plan.retrievalQueries.getD []
  let fallbackQueries := plan.fallbackQueries.getD []
  let queries := retrievalQueries.filter (fun q => q ≠ [])
  let vectorResults := queries.flatMap (fun q => sim q 4)
  let lexicalResults := lexicalSearch documents queries 4
  let combined := dedupeByContent (vectorResults ++ lexicalResults)
  if combined.length < 3 ∧ fallbackQueries ≠ [] then
    dedupeByContent (combined ++ fallbackQueries.flatMap (fun q => sim q 3)
      ++ lexicalSearch documents fallbackQueries 3)
  else combined

/-- The evidence the Researcher returns. -/
structure Retrieved where
  snippets : List Str
  aggregatedText : Str
  coverageScore : Nat
deriving DecidableEq, Repr

/-- agenticWorkflow.js `researcherAgent`: the first 8 gathered documents'
trimmed contents, joined with the separator. -/
def researcherAgent (sim : Str → Nat → List Doc) (documents : List Doc)
    (plan : PlanJson) : Retrieved :=
  let combined := researcherCombined sim documents plan
  let snippets := (combined.take 8).map (fun d => trim d.pageContent)
  { snippets := snippets
    aggregatedText := joinWith "\n---\n".toList snippets
    coverageScore := snippets.length }

/-- Modelled from the spec: the escalation rule of section 4.2 as worded —
"if the deduplicated set has fewer than 3 chunks, repeat steps 1-2 using
fallbackQueries (top-3 each) and merge/deduplicate again" — with no
condition on `fallbackQueries` being non-empty.  Compared against
`researcherCombined` for the refinement claim. -/
def researcherCombinedSpec (sim : Str → Nat → List Doc) (documents : List Doc)
    (plan : PlanJson) : List Doc :=
  let retrievalQueries := plan.retrievalQueries.getD []
  let fallbackQueries := plan.fallbackQueries.getD []
  let queries := retrievalQueries.filter (fun q => q ≠ [])
  let vectorResults := queries.flatMap (fun q => sim q 4)
  let lexicalResults := lexicalSearch documents queries 4
  let combined := dedupeByContent (vectorResults ++ lexicalResults)
  if combined.length < 3 then
    dedupeByContent (combined ++ fallbackQueries.flatMap (fun q => sim q 3)
      ++ lexicalSearch documents fallbackQueries 3)
  else combined

/-- Modelled from the spec, wrapping `researcherCombinedSpec` the way
`researcherAgent` wraps `researcherCombined`. -/
def researcherAgentSpec (sim : Str → Nat → List Doc) (documents : List Doc)
    (plan : PlanJson) : Retrieved :=
  let combined := researcherCombinedSpec sim documents plan
  let snippets := (combined.take 8).map (fun d => trim d.pageContent)
  { snippets := snippets
    aggregatedText := joinWith "\n---\n".toList snippets
    coverageScore := snippets.length }

/-! Specialized-agent ("multi") pipeline output cleanup.  The repository
holds two copies of the MultiAgentStrategy class: multiAgentStrategy.js
with the `formatOutput` normalizer, and a second copy (appended in
strategies/singleAgentStrategy.js) whose `generateWithAgent` only rewrites
leading dash bullets.  Both are embedded. -/

namespace MultiAgentStrategy

/-- formatOutput's per-line `replace(/[*_#`+"`"+`]/g, '')`: strip every
markdown character. -/
def stripMd (l : Str) : Str := l.filter (fun c => ¬ c ∈ mdChars)

/-- formatOutput's `replace(/^[-•*]\s*/, '')`: drop one leading bullet-like
marker and the whitespace after it. -/
def dropBulletMarker (l : Str) : Str :=
  match l with
  | c :: rest => if c = '-' ∨ c = '•' ∨ c = '*' then rest.dropWhile isWs else l
  | [] => l

/-- formatOutput's `replace(/^\d+\.\s*/, '')`: drop a leading numbered
prefix (digits, a dot, whitespace). -/
def dropNumberedMarker (l : Str) : Str :=
  let ds := l.takeWhile (fun c => c.isDigit)
  if ds ≠ [] ∧ (l.drop ds.length).take 1 = ['.'] then
    ((l.drop ds.length).drop 1).dropWhile isWs
  else l

/-- multiAgentStrategy.js `formatOutput(content)`: split into trimmed
non-blank lines (the same computation as the coordinated formatter's),
strip markdown, normalize bullet markers, force a leading bullet (again
the formatter's expression, `bulletizeLine`), deduplicate, re-join. -/
def formatOutput (content : Str) : Str :=
  let formatted := (reportLines content).map (fun line =>
    bulletizeLine (dropNumberedMarker (dropBulletMarker (stripMd line))))
  joinWith ['\n'] (uniqueFirst formatted)

/-- Scanner state for `dashBulletCleanup`: scanning normally (knowing
whether the position is a line start) or swallowing the whitespace run of a
matched `^-\s+` (knowing whether the last swallowed character was a
newline, which decides whether the next position is again a line start). -/
inductive DashMode
  | norm (atStart : Bool)
  | swal (prevNl : Bool)

/-- Worker for `dashBulletCleanup`: the global multiline
`replace(/^-\s+/gm, '• ')` as a one-character-at-a-time scan. -/
def dashCleanGo : DashMode → Str → Str
  | _, [] => []
  | DashMode.norm atStart, c :: rest =>
    if atStart ∧ c = '-' ∧ rest ≠ [] ∧ isWs (rest.headD ' ') then
      '•' :: ' ' :: dashCleanGo (DashMode.swal false) rest
    else c :: dashCleanGo (DashMode.norm (c = '\n')) rest
  | DashMode.swal prevNl, c :: rest =>
    if isWs c then dashCleanGo (DashMode.swal (c = '\n')) rest
    else if prevNl ∧ c = '-' ∧ rest ≠ [] ∧ isWs (rest.headD ' ') then
      '•' :: ' ' :: dashCleanGo (DashMode.swal false) rest
    else c :: dashCleanGo (DashMode.norm (c = '\n')) rest

/-- The duplicate MultiAgentStrategy copy's `generateWithAgent` cleanup
(strategies/singleAgentStrategy.js, second class): the completion content
is returned after only `content.replace(/^-\s+/gm, '• ')` — no markdown
stripping, no bullet enforcement, no deduplication. -/
def dashBulletCleanup (content : Str) : Str :=
  dashCleanGo (DashMode.norm true) content

end MultiAgentStrategy

example : MultiAgentStrategy.formatOutput "1. **Bold** point\n- dash".toList
    = "• Bold point\n• dash".toList := by decide
example : MultiAgentStrategy.formatOutput "x\nx\n• • •  y".toList
    = "• x\n• •  y".toList := by decide
example : MultiAgentStrategy.dashBulletCleanup "- a\n- b\n**bold**".toList
    = "• a\n• b\n**bold**".toList := by decide

/-! RAG Orchestrator (ragOrchestrator.js).  The two strategies' pipelines
are external effectful computations; they enter as `Except` values: the
result a strategy's execute/answerQuestion resolves with, or the message of
the error it rejects with.  The metadata timestamp is an input.  A default
mode naming no registered strategy would make the source throw a TypeError
on the strategy lookup; the lookup below assumes the configured default
names a real strategy (the claims only exercise such configurations). -/

namespace RAGOrchestrator

/-- The registered strategy keys. -/
def knownModes : List Str := ["single".toList, "multi".toList]

/-- Mode validation shared by generateReport and answerQuestion: a falsy or
unregistered mode falls back to the configured default. -/
def resolveMode (defaultMode : Str) (mode : Option Str) : Str :=
  match mode with
  | none => defaultMode
  | some m => if m = [] ∨ ¬ m ∈ knownModes then defaultMode else m

/-- Each strategy's display name. -/
def strategyName (mode : Str) : Str :=
  if mode = "multi".toList then "Multi-Agent".toList else "Single Agent".toList

/-- The metadata generateReport attaches to its result. -/
structure Metadata where
  mode : Str
  strategyName : Str
  timestamp : Str
  fallback : Option Bool := none
  originalMode : Option Str := none
  fallbackReason : Option Str := none
deriving DecidableEq, Repr

/-- A generateReport result: the strategy's payload (sections and vector
store) spread together with the orchestrator metadata. -/
structure ReportResult (α : Type) where
  payload : α
  metadata : Metadata
deriving DecidableEq, Repr

/-- ragOrchestrator.js `generateReport({mode, ...})`: resolve the mode,
reject a disabled mode with an error naming the available modes, run the
strategy; when the multi strategy raises and single is enabled, re-run the
single strategy on the same inputs and tag the result with the fallback
metadata; a failure of that re-run (or any failure with no fallback path)
propagates. -/
def generateReport {α : Type} (enabledModes : List Str) (defaultMode : Str)
    (execSingle execMulti : Except Str α) (mode : Option Str) (ts : Str) :
    Except Str (ReportResult α) :=
  let m := resolveMode defaultMode mode
  if ¬ m ∈ enabledModes then
    Except.error ("Mode '".toList ++ m ++ "' is not enabled. Available modes: ".toList
      ++ joinWith ", ".toList enabledModes)
  else
    match (if m = "multi".toList then execMulti else execSingle) with
    | Except.ok r =>
        Except.ok ⟨r, { mode := m, strategyName := strategyName m, timestamp := ts }⟩
    | Except.error e =>
        if m = "multi".toList ∧ "single".toList ∈ enabledModes then
          match execSingle with
          | Except.ok r =>
              Except.ok ⟨r, { mode := "single".toList,
                              strategyName := "Single Agent".toList,
                              timestamp := ts, fallback := some true,
                              originalMode := some m,
                              fallbackReason := some e }⟩
          | Except.error e2 => Except.error e2
        else Except.error e

/-- An answerQuestion result.  The source's non-fallback result carries
only answer, mode and strategyName; the fallback result adds
`fallback: true` and `originalMode` — and no `fallbackReason` property, so
that field of the embedding stays `none` in every code path. -/
structure QAResult where
  answer : Str
  mode : Str
  strategyName : Str
  fallback : Option Bool := none
  originalMode : Option Str := none
  fallbackReason : Option Str := none
deriving DecidableEq, Repr

/-- ragOrchestrator.js `answerQuestion({mode, ...})`: same mode resolution
and fallback policy as generateReport, but the disabled-mode error does not
list the available modes, and the fallback result carries no
fallbackReason. -/
def answerQuestion (enabledModes : List Str) (defaultMode : Str)
    (ansSingle ansMulti : Except Str Str) (mode : Option Str) :
    Except Str QAResult :=
  let m := resolveMode defaultMode mode
  if ¬ m ∈ enabledModes then
    Except.error ("Mode '".toList ++ m ++ "' is not enabled".toList)
  else
    match (if m = "multi".toList then ansMulti else ansSingle) with
    | Except.ok a => Except.ok { answer := a, mode := m, strategyName := strategyName m }
    | Except.error e =>
        if m = "multi".toList ∧ "single".toList ∈ enabledModes then
          match ansSingle with
          | Except.ok a =>
              Except.ok { answer := a, mode := "single".toList,
                          strategyName := "Single Agent".toList,
                          fallback := some true,
                          originalMode := some m }
          | Except.error e2 => Except.error e2
        else Except.error e

end RAGOrchestrator

/-! Conversation-ledger keys (aiProcessor.js `getConversationKey` and
SingleAgentStrategy's `getConversationKey`).  A JS argument that is
`undefined` or the empty string is falsy; an absent argument is `none`
here, and `some []` is the empty string. -/

namespace aiProcessor

/-- aiProcessor.js `getConversationKey(companyName)`:
`company:` + `(companyName || 'unknown').toLowerCase()`. -/
def getConversationKey (companyName : Option Str) : Str :=
  "company:".toList ++ toLowerStr
    (match companyName with
     | none => "unknown".toList
     | some s => if s = [] then "unknown".toList else s)

end aiProcessor

namespace SingleAgentStrategy

/-- singleAgentStrategy.js `getConversationKey(companyName)`:
`single:` + `(companyName || 'unknown').toLowerCase()`. -/
def getConversationKey (companyName : Option Str) : Str :=
  "single:".toList ++ toLowerStr
    (match companyName with
     | none => "unknown".toList
     | some s => if s = [] then "unknown".toList else s)

end SingleAgentStrategy

example : aiProcessor.getConversationKey (some "ACME Ltd".toList)
    = "company:acme ltd".toList := by decide
example : SingleAgentStrategy.getConversationKey none = "single:unknown".toList := by decide

/-! Supporting lemmas. -/

theorem splitOnChar_ne_nil (sep : Char) (l : Str) : splitOnChar sep l ≠ [] := by
  cases l with
  | nil => simp [splitOnChar]
  | cons c rest =>
    simp only [splitOnChar]
    by_cases h : c = sep <;> simp [h]

theorem splitOnChar_cons_of_eq (sep c : Char) (rest : Str) (h : c = sep) :
    splitOnChar sep (c :: rest) = [] :: splitOnChar sep rest := by
  simp [splitOnChar, h]

theorem splitOnChar_cons_of_ne (sep c : Char) (rest : Str) (h : ¬ c = sep) :
    splitOnChar sep (c :: rest)
      = (c :: (splitOnChar sep rest).headD []) :: (splitOnChar sep rest).tail := by
  simp [splitOnChar, h]

theorem not_mem_of_mem_splitOnChar (sep : Char) (l : Str) (p : Str)
    (hp : p ∈ splitOnChar sep l) : sep ∉ p := by
  induction l generalizing p with
  | nil =>
    have h : p = [] := List.mem_singleton.mp hp
    subst h
    exact List.not_mem_nil sep
  | cons c rest ih =>
    obtain ⟨t, ts, hts⟩ : ∃ t ts, splitOnChar sep rest = t :: ts := by
      cases hsp : splitOnChar sep rest with
      | nil => exact absurd hsp (splitOnChar_ne_nil sep rest)
      | cons t ts => exact ⟨t, ts, rfl⟩
    by_cases h : c = sep
    · rw [splitOnChar_cons_of_eq sep c rest h] at hp
      rcases List.mem_cons.mp hp with h1 | h1
      · subst h1; exact List.not_mem_nil sep
      · exact ih p h1
    · rw [splitOnChar_cons_of_ne sep c rest h, hts] at hp
      simp only [List.headD_cons, List.tail_cons] at hp
      rcases List.mem_cons.mp hp with h1 | h1
      · subst h1
        intro hmem
        rcases List.mem_cons.mp hmem with hc | hc
        · exact h hc.symm
        · exact ih t (hts ▸ List.mem_cons_self _ _) hc
      · exact ih p (hts ▸ List.mem_cons_of_mem _ h1)

theorem splitOnChar_eq_single (sep : Char) (l : Str) (h : sep ∉ l) :
    splitOnChar sep l = [l] := by
  induction l with
  | nil => simp [splitOnChar]
  | cons c rest ih =>
    simp only [List.mem_cons, not_or] at h
    have hcs : ¬ c = sep := fun hc => h.1 hc.symm
    rw [splitOnChar_cons_of_ne sep c rest hcs, ih h.2]
    simp

theorem splitOnChar_append_cons (sep : Char) (p t : Str) (h : sep ∉ p) :
    splitOnChar sep (p ++ sep :: t) = p :: splitOnChar sep t := by
  induction p with
  | nil =>
    simp only [List.nil_append]
    exact splitOnChar_cons_of_eq sep sep t rfl
  | cons c p ih =>
    simp only [List.mem_cons, not_or] at h
    have hcs : ¬ c = sep := fun hc => h.1 hc.symm
    rw [List.cons_append, splitOnChar_cons_of_ne sep c _ hcs, ih h.2]
    simp

theorem splitOnChar_joinWith (sep : Char) (parts : List Str) (hne : parts ≠ [])
    (h : ∀ p ∈ parts, sep ∉ p) :
    splitOnChar sep (joinWith [sep] parts) = parts := by
  induction parts with
  | nil => exact absurd rfl hne
  | cons p rest ih =>
    cases rest with
    | nil =>
      simp only [joinWith]
      exact splitOnChar_eq_single sep p (h p (List.mem_cons_self _ _))
    | cons q rest2 =>
      have hjoin : joinWith [sep] (p :: q :: rest2)
          = p ++ sep :: joinWith [sep] (q :: rest2) := by
        simp [joinWith]
      rw [hjoin, splitOnChar_append_cons sep _ _ (h p (List.mem_cons_self _ _)),
        ih (by simp) (fun r hr => h r (List.mem_cons_of_mem _ hr))]

theorem mem_of_mem_uniqueFirstGo {α : Type} [DecidableEq α] (seen : List α) (l : List α)
    (x : α) (hx : x ∈ uniqueFirstGo seen l) : x ∈ l := by
  induction l generalizing seen with
  | nil => simp [uniqueFirstGo] at hx
  | cons a l ih =>
    simp only [uniqueFirstGo] at hx
    by_cases h : a ∈ seen
    · rw [if_pos h] at hx
      exact List.mem_cons_of_mem _ (ih seen hx)
    · rw [if_neg h] at hx
      rcases List.mem_cons.mp hx with hx | hx
      · exact hx ▸ List.mem_cons_self _ _
      · exact List.mem_cons_of_mem _ (ih _ hx)

theorem not_mem_seen_of_mem_uniqueFirstGo {α : Type} [DecidableEq α] (seen : List α)
    (l : List α) (x : α) (hx : x ∈ uniqueFirstGo seen l) : x ∉ seen := by
  induction l generalizing seen with
  | nil => simp [uniqueFirstGo] at hx
  | cons a l ih =>
    simp only [uniqueFirstGo] at hx
    by_cases h : a ∈ seen
    · rw [if_pos h] at hx
      exact ih seen hx
    · rw [if_neg h] at hx
      rcases List.mem_cons.mp hx with hx | hx
      · exact hx ▸ h
      · intro hseen
        exact ih _ hx (List.mem_cons_of_mem _ hseen)

theorem uniqueFirstGo_pairwise {α : Type} [DecidableEq α] (seen : List α) (l : List α) :
    List.Pairwise (· ≠ ·) (uniqueFirstGo seen l) := by
  induction l generalizing seen with
  | nil => simp [uniqueFirstGo]
  | cons a l ih =>
    simp only [uniqueFirstGo]
    by_cases h : a ∈ seen
    · rw [if_pos h]; exact ih seen
    · rw [if_neg h]
      refine List.Pairwise.cons (fun b hb => ?_) (ih _)
      intro hab
      exact not_mem_seen_of_mem_uniqueFirstGo _ _ _ hb (hab ▸ List.mem_cons_self _ _)

theorem mem_of_mem_dropWhile (p : Char → Bool) (l : Str) (c : Char)
    (h : c ∈ l.dropWhile p) : c ∈ l :=
  (List.dropWhile_sublist p (l := l)).subset h

theorem mem_of_mem_trim (l : Str) (c : Char) (h : c ∈ trim l) : c ∈ l := by
  unfold trim at h
  rw [List.mem_reverse] at h
  have h2 := mem_of_mem_dropWhile _ _ _ h
  rw [List.mem_reverse] at h2
  exact mem_of_mem_dropWhile _ _ _ h2

theorem mem_dedupeGo_not_seen (seen : List Str) (l : List Doc) (d : Doc)
    (hd : d ∈ dedupeGo seen l) : docSig d ∉ seen := by
  induction l generalizing seen with
  | nil => simp [dedupeGo] at hd
  | cons a l ih =>
    simp only [dedupeGo] at hd
    by_cases h : docSig a ∈ seen
    · rw [if_pos h] at hd
      exact ih seen hd
    · rw [if_neg h] at hd
      rcases List.mem_cons.mp hd with hd | hd
      · exact hd ▸ h
      · intro hseen
        exact ih _ hd (List.mem_cons_of_mem _ hseen)

theorem dedupeGo_pairwise (seen : List Str) (l : List Doc) :
    List.Pairwise (fun a b => docSig a ≠ docSig b) (dedupeGo seen l) := by
  induction l generalizing seen with
  | nil => simp [dedupeGo]
  | cons a l ih =>
    simp only [dedupeGo]
    by_cases h : docSig a ∈ seen
    · rw [if_pos h]; exact ih seen
    · rw [if_neg h]
      refine List.Pairwise.cons (fun b hb => ?_) (ih _)
      intro hab
      exact mem_dedupeGo_not_seen _ _ _ hb (hab ▸ List.mem_cons_self _ _)

theorem dedupeGo_eq_self (seen : List Str) (l : List Doc)
    (hseen : ∀ d ∈ l, docSig d ∉ seen)
    (hpw : List.Pairwise (fun a b => docSig a ≠ docSig b) l) :
    dedupeGo seen l = l := by
  induction l generalizing seen with
  | nil => simp [dedupeGo]
  | cons a l ih =>
    simp only [dedupeGo, if_neg (hseen a (List.mem_cons_self _ _))]
    refine congrArg (a :: ·) (ih _ (fun d hd => ?_) hpw.of_cons)
    intro hmem
    rcases List.mem_cons.mp hmem with hsig | hsig
    · exact (List.pairwise_cons.mp hpw).1 d hd hsig.symm
    · exact hseen d (List.mem_cons_of_mem _ hd) hsig

theorem dedupeByContent_idem (l : List Doc) :
    dedupeByContent (dedupeByContent l) = dedupeByContent l :=
  dedupeGo_eq_self [] _ (fun _ _ => List.not_mem_nil _) (dedupeGo_pairwise [] l)

theorem length_pushConversation (h : List ConversationEntry) (a c t : Str) :
    (pushConversation h a c t).length = min (h.length + 1) 24 := by
  unfold pushConversation
  by_cases hlen : 24 < (h ++ [(⟨a, limitText c 1200, t⟩ : ConversationEntry)]).length
  · rw [if_pos hlen]
    simp only [List.length_drop, List.length_append, List.length_singleton] at *
    omega
  · rw [if_neg hlen]
    simp only [List.length_append, List.length_singleton] at *
    omega

theorem length_limitText_le (t : Str) (n : Nat) : (limitText t n).length ≤ n + 3 := by
  unfold limitText
  by_cases h0 : t = []
  · simp [h0]
  · rw [if_neg h0]
    by_cases h1 : t.length ≤ n
    · rw [if_pos h1]; omega
    · rw [if_neg h1]
      have h3 : ("...".toList).length = 3 := rfl
      simp only [List.length_append, List.length_take]
      omega

theorem length_takeLast_le {α : Type} (n : Nat) (l : List α) :
    (takeLast n l).length ≤ n := by
  unfold takeLast
  simp only [List.length_drop]
  omega

theorem mem_reportLines_not_nl (content l0 : Str) (h : l0 ∈ reportLines content) :
    '\n' ∉ l0 := by
  unfold reportLines at h
  have h1 := (List.mem_filter.mp h).1
  obtain ⟨p, hp, hpe⟩ := List.mem_map.mp h1
  intro hmem
  exact not_mem_of_mem_splitOnChar '\n' content p hp (mem_of_mem_trim p '\n' (hpe ▸ hmem))

theorem bulletizeLine_take_two (l : Str) : (bulletizeLine l).take 2 = "• ".toList := by
  unfold bulletizeLine
  by_cases h : l.take 1 = ['•']
  · rw [if_pos h]; rfl
  · rw [if_neg h]; rfl

theorem bulletizeLine_ne_nil (l : Str) : bulletizeLine l ≠ [] := by
  unfold bulletizeLine
  by_cases h : l.take 1 = ['•'] <;> simp [h]

theorem mem_bulletizeLine (l : Str) (c : Char) (h : c ∈ bulletizeLine l) :
    c = '•' ∨ c = ' ' ∨ c ∈ l := by
  unfold bulletizeLine at h
  by_cases hb : l.take 1 = ['•']
  · rw [if_pos hb] at h
    rcases List.mem_cons.mp h with h | h
    · exact Or.inl h
    rcases List.mem_cons.mp h with h | h
    · exact Or.inr (Or.inl h)
    · exact Or.inr (Or.inr (List.mem_of_mem_drop (mem_of_mem_dropWhile _ _ _ h)))
  · rw [if_neg hb] at h
    rcases List.mem_cons.mp h with h | h
    · exact Or.inl h
    rcases List.mem_cons.mp h with h | h
    · exact Or.inr (Or.inl h)
    · exact Or.inr (Or.inr h)

theorem formatter_line_spec (content u : Str)
    (hu : u ∈ uniqueFirst ((reportLines content).map bulletizeLine)) :
    u.take 2 = "• ".toList ∧ '\n' ∉ u ∧ u ≠ [] := by
  have hmem := mem_of_mem_uniqueFirstGo _ _ _ hu
  obtain ⟨l0, hl0, rfl⟩ := List.mem_map.mp hmem
  refine ⟨bulletizeLine_take_two l0, ?_, bulletizeLine_ne_nil l0⟩
  intro hnl
  rcases mem_bulletizeLine l0 '\n' hnl with h | h | h
  · exact absurd h (by decide)
  · exact absurd h (by decide)
  · exact mem_reportLines_not_nl content l0 hl0 h

/-- C2 amended theorem: for every Analyst/Validator completion text, every
non-empty line of the coordinated Formatter's report output starts with the
two-character prefix bullet-space.  (The markdown-character part of the
claim fails: see the counterexample.) -/
theorem formatterAgent_report_lines_bulleted (content line : Str)
    (hline : line ∈ splitOnChar '\n' (formatterAgent "report".toList content))
    (hne : line ≠ []) : line.take 2 = "• ".toList := by
  have hfmt : formatterAgent "report".toList content
      = joinWith ['\n'] (uniqueFirst ((reportLines content).map bulletizeLine)) := by
    simp [formatterAgent]
  rw [hfmt] at hline
  by_cases hU : uniqueFirst ((reportLines content).map bulletizeLine) = []
  · rw [hU] at hline
    simp only [joinWith, splitOnChar, List.mem_singleton] at hline
    exact absurd hline hne
  · rw [splitOnChar_joinWith '\n' _ hU
      (fun p hp => (formatter_line_spec content p hp).2.1)] at hline
    exact (formatter_line_spec content line hline).1

/-- C2 witness: a concrete run of the amended theorem. -/
theorem formatterAgent_report_lines_bulleted_witness :
    "• a".toList ∈ splitOnChar '\n' (formatterAgent "report".toList "a\nb".toList)
    ∧ "• a".toList ≠ ([] : Str)
    ∧ ("• a".toList).take 2 = "• ".toList :=
  ⟨by decide, by decide,
    formatterAgent_report_lines_bulleted "a\nb".toList "• a".toList (by decide) (by decide)⟩

/-- C2 counterexample: the coordinated Formatter does not strip markdown
characters — an Analyst/Validator completion `* foo` leaves an asterisk in
the post-Formatter section text, contradicting the claim that the text
contains none of `* # _` backtick; and a completion whose line starts with
two bullets keeps the second, so the line does not start with exactly one
bullet-space. -/
theorem formatterAgent_report_keeps_markdown :
    formatterAgent "report".toList "* foo".toList = "• * foo".toList
    ∧ '*' ∈ formatterAgent "report".toList "* foo".toList
    ∧ formatterAgent "report".toList "• • foo".toList = "• • foo".toList
    ∧ ((formatterAgent "report".toList "• • foo".toList).drop 2).take 2 = "• ".toList :=
  ⟨by decide, by decide, by decide, by decide⟩

theorem not_md_of_mem_stripMd (l : Str) (c : Char)
    (h : c ∈ MultiAgentStrategy.stripMd l) : ¬ c ∈ mdChars := by
  unfold MultiAgentStrategy.stripMd at h
  simpa using (List.mem_filter.mp h).2

theorem mem_stripMd (l : Str) (c : Char) (h : c ∈ MultiAgentStrategy.stripMd l) : c ∈ l := by
  unfold MultiAgentStrategy.stripMd at h
  exact (List.mem_filter.mp h).1

theorem mem_dropBulletMarker (l : Str) (c : Char)
    (h : c ∈ MultiAgentStrategy.dropBulletMarker l) : c ∈ l := by
  cases l with
  | nil => exact h
  | cons d rest =>
    rw [show MultiAgentStrategy.dropBulletMarker (d :: rest)
        = if d = '-' ∨ d = '•' ∨ d = '*' then rest.dropWhile isWs else d :: rest from rfl] at h
    by_cases hd : d = '-' ∨ d = '•' ∨ d = '*'
    · rw [if_pos hd] at h
      exact List.mem_cons_of_mem _ (mem_of_mem_dropWhile _ _ _ h)
    · rwa [if_neg hd] at h

theorem mem_dropNumberedMarker (l : Str) (c : Char)
    (h : c ∈ MultiAgentStrategy.dropNumberedMarker l) : c ∈ l := by
  unfold MultiAgentStrategy.dropNumberedMarker at h
  by_cases hd : l.takeWhile (fun c => c.isDigit) ≠ []
      ∧ ((l.drop (l.takeWhile (fun c => c.isDigit)).length).take 1 = ['.'])
  · rw [if_pos hd] at h
    exact List.mem_of_mem_drop (List.mem_of_mem_drop (mem_of_mem_dropWhile _ _ _ h))
  · rwa [if_neg hd] at h

theorem formatOutput_line_spec (content u : Str)
    (hu : u ∈ uniqueFirst ((reportLines content).map (fun line =>
      bulletizeLine (MultiAgentStrategy.dropNumberedMarker
        (MultiAgentStrategy.dropBulletMarker (MultiAgentStrategy.stripMd line)))))) :
    u.take 2 = "• ".toList ∧ '\n' ∉ u ∧ u ≠ [] ∧ ∀ c ∈ u, ¬ c ∈ mdChars := by
  have hmem := mem_of_mem_uniqueFirstGo _ _ _ hu
  obtain ⟨l0, hl0, rfl⟩ := List.mem_map.mp hmem
  have hsub : ∀ c : Char,
      c ∈ MultiAgentStrategy.dropNumberedMarker
        (MultiAgentStrategy.dropBulletMarker (MultiAgentStrategy.stripMd l0)) →
      c ∈ MultiAgentStrategy.stripMd l0 :=
    fun c hc => mem_dropBulletMarker _ _ (mem_dropNumberedMarker _ _ hc)
  refine ⟨bulletizeLine_take_two _, ?_, bulletizeLine_ne_nil _, ?_⟩
  · intro hnl
    rcases mem_bulletizeLine _ '\n' hnl with h | h | h
    · exact absurd h (by decide)
    · exact absurd h (by decide)
    · exact mem_reportLines_not_nl content l0 hl0 (mem_stripMd _ _ (hsub _ h))
  · intro c hc
    rcases mem_bulletizeLine _ c hc with h | h | h
    · subst h; decide
    · subst h; decide
    · exact not_md_of_mem_stripMd _ _ (hsub _ h)

/-- C9 amended theorem: the multiAgentStrategy.js `formatOutput` normalizer
guarantees, for every completion text, that each non-empty output line
starts with the bullet-space prefix and carries no markdown character, and
that the output lines are pairwise distinct.  (The claim as stated fails
for the repository's second MultiAgentStrategy copy: see the
counterexample.) -/
theorem formatOutput_normalized (content : Str) :
    (∀ line ∈ splitOnChar '\n' (MultiAgentStrategy.formatOutput content),
      line ≠ [] → line.take 2 = "• ".toList ∧ ∀ c ∈ line, ¬ c ∈ mdChars)
    ∧ List.Pairwise (· ≠ ·) (splitOnChar '\n' (MultiAgentStrategy.formatOutput content)) := by
  have hfmt : MultiAgentStrategy.formatOutput content
      = joinWith ['\n'] (uniqueFirst ((reportLines content).map (fun line =>
          bulletizeLine (MultiAgentStrategy.dropNumberedMarker
            (MultiAgentStrategy.dropBulletMarker (MultiAgentStrategy.stripMd line)))))) := by
    simp [MultiAgentStrategy.formatOutput]
  by_cases hU : uniqueFirst ((reportLines content).map (fun line =>
      bulletizeLine (MultiAgentStrategy.dropNumberedMarker
        (MultiAgentStrategy.dropBulletMarker (MultiAgentStrategy.stripMd line))))) = []
  · rw [hfmt, hU]
    constructor
    · intro line hline hne
      simp only [joinWith, splitOnChar, List.mem_singleton] at hline
      exact absurd hline hne
    · simp [joinWith, splitOnChar]
  · rw [hfmt, splitOnChar_joinWith '\n' _ hU
      (fun p hp => (formatOutput_line_spec content p hp).2.1)]
    constructor
    · intro line hline _
      exact ⟨(formatOutput_line_spec content line hline).1,
        (formatOutput_line_spec content line hline).2.2.2⟩
    · exact uniqueFirstGo_pairwise [] _

/-- C9 witness: a concrete run of the amended theorem. -/
theorem formatOutput_normalized_witness :
    "• Bold point".toList
      ∈ splitOnChar '\n' (MultiAgentStrategy.formatOutput "1. **Bold** point".toList)
    ∧ "• Bold point".toList ≠ ([] : Str)
    ∧ ("• Bold point".toList).take 2 = "• ".toList :=
  ⟨by decide, by decide,
    ((formatOutput_normalized "1. **Bold** point".toList).1 _ (by decide) (by decide)).1⟩

/-- C9 counterexample: the repository's duplicate MultiAgentStrategy copy
(appended in strategies/singleAgentStrategy.js, the file the claim cites)
returns section text after only the leading-dash rewrite: a completion
`**bold**` keeps its asterisks and gains no bullet, so the claim that every
section text of the specialized pipeline is stripped of markdown and
bullet-normalized fails there.  Moreover even formatOutput leaves a second
bullet in a line that had three, so "a single bullet-space" fails there
too. -/
theorem multiAgent_duplicate_not_normalized :
    MultiAgentStrategy.dashBulletCleanup "**bold**".toList = "**bold**".toList
    ∧ '*' ∈ MultiAgentStrategy.dashBulletCleanup "**bold**".toList
    ∧ ¬ (MultiAgentStrategy.dashBulletCleanup "**bold**".toList).take 2 = "• ".toList
    ∧ MultiAgentStrategy.formatOutput "• • • foo".toList = "• • foo".toList :=
  ⟨by decide, by decide, by decide, by decide⟩

theorem lexicalSearch_nil_queries (documents : List Doc) (limit : Nat) :
    lexicalSearch documents [] limit = [] := by
  simp [lexicalSearch]

theorem researcherCombined_pairwise (sim : Str → Nat → List Doc) (documents : List Doc)
    (plan : PlanJson) :
    List.Pairwise (fun a b => docSig a ≠ docSig b) (researcherCombined sim documents plan) := by
  simp only [researcherCombined]
  split
  · exact dedupeGo_pairwise [] _
  · exact dedupeGo_pairwise [] _

/-- C6 theorem: the Researcher's document gathering equals the spec-worded
version in which the fallback retrieval runs exactly when the deduplicated
first-pass set has fewer than 3 chunks (the source's extra guard that
`fallbackQueries` be non-empty changes nothing: searching no queries
contributes nothing and re-deduplication is idempotent). -/
theorem researcherAgent_eq_spec (sim : Str → Nat → List Doc) (documents : List Doc)
    (plan : PlanJson) :
    researcherAgent sim documents plan = researcherAgentSpec sim documents plan := by
  have hcomb : researcherCombined sim documents plan
      = researcherCombinedSpec sim documents plan := by
    simp only [researcherCombined, researcherCombinedSpec]
    by_cases hf : plan.fallbackQueries.getD [] = []
    · rw [hf]
      have hlex : lexicalSearch documents [] 3 = [] := lexicalSearch_nil_queries documents 3
      simp only [ne_eq, not_true_eq_false, and_false, if_false, hlex,
        List.flatMap_nil, List.append_nil]
      rw [dedupeByContent_idem]
      simp
    · simp only [ne_eq, hf, not_false_eq_true, and_true]
  simp only [researcherAgent, researcherAgentSpec, hcomb]

/-- C7 theorem: the Researcher's evidence has at most 8 snippets; the
snippets are exactly the trimmed contents of the first 8 gathered
documents; those documents have pairwise distinct 160-character content
signatures (so two chunks sharing a 160-character prefix never both
contribute); and the aggregated text is precisely the separator-join of
the snippets. -/
theorem researcher_snippets_invariants (sim : Str → Nat → List Doc) (documents : List Doc)
    (plan : PlanJson) :
    (researcherAgent sim documents plan).snippets.length ≤ 8
    ∧ (researcherAgent sim documents plan).snippets
        = ((researcherCombined sim documents plan).take 8).map (fun d => trim d.pageContent)
    ∧ List.Pairwise (fun a b => docSig a ≠ docSig b)
        ((researcherCombined sim documents plan).take 8)
    ∧ (researcherAgent sim documents plan).aggregatedText
        = joinWith "\n---\n".toList (researcherAgent sim documents plan).snippets := by
  refine ⟨?_, rfl, ?_, rfl⟩
  · show (((researcherCombined sim documents plan).take 8).map
      (fun d => trim d.pageContent)).length ≤ 8
    rw [List.length_map]
    exact List.length_take_le 8 _
  · exact List.Pairwise.sublist (List.take_sublist 8 _)
      (researcherCombined_pairwise sim documents plan)

/-- C3 amended theorem: when no JSON object can be parsed from the planner
completion, plan resolution substitutes the deterministic default plan
built from the work-unit fields, whose toolSuggestions are exactly
numeric_summary and keyword_coverage and whose five array fields are all
present (non-null).  (When a JSON object does parse, it is returned as-is
and may lack array fields: see the counterexample.) -/
theorem resolvePlan_default_on_parse_failure
    (parse : Str → Option PlanJson) (mode sectionType companyName question content : Str)
    (h : ensureJSON parse content = none) :
    resolvePlan parse mode sectionType companyName question content
      = defaultPlan mode sectionType companyName question
    ∧ (resolvePlan parse mode sectionType companyName question content).toolSuggestions
      = some ["numeric_summary".toList, "keyword_coverage".toList]
    ∧ (resolvePlan parse mode sectionType companyName question content).retrievalQueries.isSome
    ∧ (resolvePlan parse mode sectionType companyName question content).fallbackQueries.isSome
    ∧ (resolvePlan parse mode sectionType companyName question content).analysisFocus.isSome
    ∧ (resolvePlan parse mode sectionType companyName question content).subQuestions.isSome := by
  have hres : resolvePlan parse mode sectionType companyName question content
      = defaultPlan mode sectionType companyName question := by
    unfold resolvePlan
    rw [h]
  refine ⟨hres, ?_, ?_, ?_, ?_, ?_⟩ <;> rw [hres] <;> rfl

/-- C3 witness: a concrete run of the amended theorem with a completion
holding no JSON at all. -/
theorem resolvePlan_default_witness :
    ensureJSON (fun _ => none) "no json here".toList = none
    ∧ resolvePlan (fun _ => none) "report".toList "overview".toList "ACME".toList []
        "no json here".toList
      = defaultPlan "report".toList "overview".toList "ACME".toList [] :=
  ⟨by decide,
    (resolvePlan_default_on_parse_failure (fun _ => none) "report".toList "overview".toList
      "ACME".toList [] "no json here".toList (by decide)).1⟩

/-- The object `JSON.parse` returns for the completion span holding only an
objective property: every array field is absent. -/
def parsedObjectiveOnly : PlanJson where
  objective := some "x".toList
  retrievalQueries := none
  fallbackQueries := none
  analysisFocus := none
  subQuestions := none
  toolSuggestions := none

/-- C3 counterexample: a completion that parses as a JSON object with only
an objective is returned as the Plan unchanged — its retrievalQueries (and
the other array fields) are null/absent, contradicting the claim that the
Plan handed to downstream stages always has non-null array values.  (The
downstream stages apply their own per-field defaults instead.) -/
theorem resolvePlan_parsed_missing_arrays :
    resolvePlan (fun _ => some parsedObjectiveOnly) "report".toList "overview".toList
        "ACME".toList [] ([lbrace] ++ "\"objective\":\"x\"".toList ++ [rbrace])
      = parsedObjectiveOnly
    ∧ parsedObjectiveOnly.retrievalQueries = none
    ∧ parsedObjectiveOnly.toolSuggestions = none :=
  ⟨by decide, rfl, rfl⟩

/-- C4 amended theorem: starting from an empty ledger, any sequence of
appends leaves at most 24 entries (each append keeps min(n+1, 24),
dropping oldest first); the prompt view renders the last at-most-8 entries,
each entry's content limited to 500 characters plus a 3-character ellipsis
(at most 503 characters, not 500: see the counterexample). -/
theorem ledger_bounds :
    (∀ appends : List (Str × Str × Str),
      (appends.foldl (fun h x => pushConversation h x.1 x.2.1 x.2.2) []).length ≤ 24)
    ∧ (∀ (h : List ConversationEntry) (a c t : Str),
      (pushConversation h a c t).length = min (h.length + 1) 24)
    ∧ (∀ (h : List ConversationEntry) (a c t : Str), 24 < h.length + 1 →
      pushConversation h a c t
        = (h ++ [(⟨a, limitText c 1200, t⟩ : ConversationEntry)]).drop (h.length + 1 - 24))
    ∧ (∀ history : List ConversationEntry, history ≠ [] →
      formatConversationForPrompt history
          = joinWith ['\n'] ((takeLast 8 history).map entryLine)
        ∧ (takeLast 8 history).length ≤ 8
        ∧ ∀ e ∈ takeLast 8 history, (limitText e.content 500).length ≤ 503) := by
  refine ⟨?_, length_pushConversation, ?_, ?_⟩
  · have inv : ∀ (appends : List (Str × Str × Str)) (h : List ConversationEntry),
        h.length ≤ 24 →
        (appends.foldl (fun h x => pushConversation h x.1 x.2.1 x.2.2) h).length ≤ 24 := by
      intro appends
      induction appends with
      | nil => intro h hh; simpa using hh
      | cons x xs ih =>
        intro h hh
        simp only [List.foldl_cons]
        refine ih _ ?_
        rw [length_pushConversation]
        omega
    intro appends
    exact inv appends [] (by simp)
  · intro h a c t hlen
    unfold pushConversation
    rw [if_pos (by simp only [List.length_append, List.length_singleton]; omega)]
    simp only [List.length_append, List.length_singleton]
  · intro history hne
    refine ⟨?_, length_takeLast_le 8 history,
      fun e _ => length_limitText_le e.content 500⟩
    unfold formatConversationForPrompt
    rw [if_neg hne]

/-- C4 witness: a concrete run of the amended theorem on a one-entry
ledger. -/
theorem ledger_bounds_witness :
    ([(⟨"a".toList, "c".toList, "t".toList⟩ : ConversationEntry)]
        ≠ ([] : List ConversationEntry))
    ∧ formatConversationForPrompt [⟨"a".toList, "c".toList, "t".toList⟩]
        = joinWith ['\n']
            ((takeLast 8 [(⟨"a".toList, "c".toList, "t".toList⟩ : ConversationEntry)]).map
              entryLine) :=
  ⟨by decide, (ledger_bounds.2.2.2 _ (by decide)).1⟩

set_option maxRecDepth 8000 in
/-- C4 counterexample: a 501-character entry content shows up in the prompt
view as 503 characters — the 500-character cut plus the ellipsis — so
"truncated to at most 500 characters" fails as stated. -/
theorem ledger_view_content_exceeds_500 :
    (limitText (List.replicate 501 'x') 500).length = 503
    ∧ 500 < (limitText (List.replicate 501 'x') 500).length
    ∧ formatConversationForPrompt [⟨"a".toList, List.replicate 501 'x', "t".toList⟩]
        = "[A] ".toList ++ limitText (List.replicate 501 'x') 500 :=
  ⟨by decide, by decide, by decide⟩

instance {ε α : Type} [DecidableEq ε] [DecidableEq α] : DecidableEq (Except ε α) := fun x y =>
  match x, y with
  | Except.ok a, Except.ok b =>
    if h : a = b then isTrue (by rw [h]) else isFalse (fun hh => h (Except.ok.inj hh))
  | Except.ok _, Except.error _ => isFalse (fun hh => Except.noConfusion hh)
  | Except.error _, Except.ok _ => isFalse (fun hh => Except.noConfusion hh)
  | Except.error a, Except.error b =>
    if h : a = b then isTrue (by rw [h]) else isFalse (fun hh => h (Except.error.inj hh))

theorem containsSeg_append_right (needle s : Str) : containsSeg needle (s ++ needle) = true := by
  unfold containsSeg
  rw [List.any_eq_true]
  refine ⟨s.length, ?_, ?_⟩
  · rw [List.mem_range, List.length_append]
    omega
  · rw [decide_eq_true_iff, List.drop_left, List.take_length]

/-- C5 amended theorem: in both orchestrator entry points a missing, empty
or unregistered mode silently resolves to the configured default; a
resolved mode outside the enabled list makes generateReport fail with an
error that names the allowed modes, while answerQuestion's error names
only the rejected mode (see the counterexample). -/
theorem orchestrator_mode_resolution {α : Type}
    (enabled : List Str) (dflt : Str) (execS execM : Except Str α)
    (ansS ansM : Except Str Str) (m : Str) (mode : Option Str) (ts : Str) :
    RAGOrchestrator.resolveMode dflt none = dflt
    ∧ (m = [] ∨ ¬ m ∈ RAGOrchestrator.knownModes →
        RAGOrchestrator.resolveMode dflt (some m) = dflt)
    ∧ (¬ RAGOrchestrator.resolveMode dflt mode ∈ enabled →
        RAGOrchestrator.generateReport enabled dflt execS execM mode ts
          = Except.error ("Mode '".toList ++ RAGOrchestrator.resolveMode dflt mode
              ++ "' is not enabled. Available modes: ".toList
              ++ joinWith ", ".toList enabled)
        ∧ containsSeg (joinWith ", ".toList enabled)
            ("Mode '".toList ++ RAGOrchestrator.resolveMode dflt mode
              ++ "' is not enabled. Available modes: ".toList
              ++ joinWith ", ".toList enabled) = true
        ∧ RAGOrchestrator.answerQuestion enabled dflt ansS ansM mode
          = Except.error ("Mode '".toList ++ RAGOrchestrator.resolveMode dflt mode
              ++ "' is not enabled".toList)) := by
  refine ⟨rfl, ?_, ?_⟩
  · intro h
    show (if m = [] ∨ ¬ m ∈ RAGOrchestrator.knownModes then dflt else m) = dflt
    rw [if_pos h]
  · intro h
    refine ⟨?_, ?_, ?_⟩
    · simp only [RAGOrchestrator.generateReport]
      rw [if_pos h]
    · have hassoc : "Mode '".toList ++ RAGOrchestrator.resolveMode dflt mode
          ++ "' is not enabled. Available modes: ".toList ++ joinWith ", ".toList enabled
          = ("Mode '".toList ++ RAGOrchestrator.resolveMode dflt mode
              ++ "' is not enabled. Available modes: ".toList)
            ++ joinWith ", ".toList enabled := by
        simp [List.append_assoc]
      rw [hassoc]
      exact containsSeg_append_right _ _
    · simp only [RAGOrchestrator.answerQuestion]
      rw [if_pos h]

/-- C5 witness: a concrete run of the amended theorem — the enabled list
holds only single, the requested mode is multi, and generateReport's error
message carries the joined enabled-mode list. -/
theorem orchestrator_mode_resolution_witness :
    (¬ RAGOrchestrator.resolveMode "single".toList (some "multi".toList) ∈ ["single".toList])
    ∧ RAGOrchestrator.generateReport ["single".toList] "single".toList
        (Except.ok (0 : Nat)) (Except.ok 0) (some "multi".toList) "t".toList
      = Except.error ("Mode '".toList
          ++ RAGOrchestrator.resolveMode "single".toList (some "multi".toList)
          ++ "' is not enabled. Available modes: ".toList
          ++ joinWith ", ".toList ["single".toList]) :=
  ⟨by decide,
    ((orchestrator_mode_resolution ["single".toList] "single".toList
      (Except.ok (0 : Nat)) (Except.ok 0) (Except.ok []) (Except.ok [])
      [] (some "multi".toList) "t".toList).2.2 (by decide)).1⟩

/-- C5 counterexample: answerQuestion's configuration error for a disabled
mode is `Mode 'multi' is not enabled`, which does not name the allowed
modes (the enabled mode `single` appears nowhere in it), contradicting the
claim for the question entry point. -/
theorem answerQuestion_error_lacks_modes :
    RAGOrchestrator.answerQuestion ["single".toList] "single".toList
        (Except.ok "a".toList) (Except.ok "a".toList) (some "multi".toList)
      = Except.error "Mode 'multi' is not enabled".toList
    ∧ containsSeg "single".toList "Mode 'multi' is not enabled".toList = false :=
  ⟨by decide, by decide⟩

/-- C1 amended theorem: when the specialized-agent mode multi is invoked
and raises while single is enabled, both entry points re-invoke the single
strategy with the same inputs: generateReport returns its result tagged
fallback (metadata fallback=true, originalMode=multi, fallbackReason=the
error message), while answerQuestion's fallback result carries
fallback=true and originalMode but no fallbackReason (see the
counterexample); in both, when the single re-invocation itself raises, that
second error — not the original — propagates, with no further attempt. -/
theorem orchestrator_fallback_one_hop {α : Type}
    (enabled : List Str) (dflt : Str) (execS execM : Except Str α)
    (ansS ansM : Except Str Str) (e : Str) (ts : Str)
    (hm : "multi".toList ∈ enabled) (hs : "single".toList ∈ enabled) :
    (execM = Except.error e →
      (∀ r, execS = Except.ok r →
        RAGOrchestrator.generateReport enabled dflt execS execM (some "multi".toList) ts
          = Except.ok ⟨r, { mode := "single".toList,
                            strategyName := "Single Agent".toList,
                            timestamp := ts,
                            fallback := some true,
                            originalMode := some "multi".toList,
                            fallbackReason := some e }⟩)
      ∧ (∀ e2, execS = Except.error e2 →
        RAGOrchestrator.generateReport enabled dflt execS execM (some "multi".toList) ts
          = Except.error e2))
    ∧ (ansM = Except.error e →
      (∀ a, ansS = Except.ok a →
        RAGOrchestrator.answerQuestion enabled dflt ansS ansM (some "multi".toList)
          = Except.ok { answer := a, mode := "single".toList,
                        strategyName := "Single Agent".toList,
                        fallback := some true,
                        originalMode := some "multi".toList,
                        fallbackReason := none })
      ∧ (∀ e2, ansS = Except.error e2 →
        RAGOrchestrator.answerQuestion enabled dflt ansS ansM (some "multi".toList)
          = Except.error e2)) := by
  have hres : RAGOrchestrator.resolveMode dflt (some "multi".toList) = "multi".toList := by
    show (if "multi".toList = ([] : Str) ∨ ¬ "multi".toList ∈ RAGOrchestrator.knownModes
      then dflt else "multi".toList) = "multi".toList
    rw [if_neg (by decide)]
  have hm2 : ['m', 'u', 'l', 't', 'i'] ∈ enabled := hm
  have hs2 : ['s', 'i', 'n', 'g', 'l', 'e'] ∈ enabled := hs
  constructor
  · intro hM
    constructor
    · intro r hS
      simp only [RAGOrchestrator.generateReport, hres, hM, hS]
      simp [hm2, hs2]
    · intro e2 hS
      simp only [RAGOrchestrator.generateReport, hres, hM, hS]
      simp [hm2, hs2]
  · intro hM
    constructor
    · intro a hS
      simp only [RAGOrchestrator.answerQuestion, hres, hM, hS]
      simp [hm2, hs2]
    · intro e2 hS
      simp only [RAGOrchestrator.answerQuestion, hres, hM, hS]
      simp [hm2, hs2]

/-- C1 witness: a concrete run of the amended theorem — multi raises
`boom`, single succeeds, and generateReport returns the fallback-tagged
result. -/
theorem orchestrator_fallback_one_hop_witness :
    "multi".toList ∈ ["single".toList, "multi".toList]
    ∧ RAGOrchestrator.generateReport ["single".toList, "multi".toList] "single".toList
        (Except.ok (0 : Nat)) (Except.error "boom".toList) (some "multi".toList) "t".toList
      = Except.ok ⟨0, { mode := "single".toList,
                        strategyName := "Single Agent".toList,
                        timestamp := "t".toList, fallback := some true,
                        originalMode := some "multi".toList,
                        fallbackReason := some "boom".toList }⟩ :=
  ⟨by decide,
    ((orchestrator_fallback_one_hop ["single".toList, "multi".toList] "single".toList
      (Except.ok (0 : Nat)) (Except.error "boom".toList) (Except.ok []) (Except.ok [])
      "boom".toList "t".toList (by decide) (by decide)).1 rfl).1 0 rfl⟩

/-- C1 counterexample: answerQuestion's fallback result carries no
fallbackReason — the property the source never sets stays absent — so the
claim that the fallback result of answerQuestion has fallbackReason set to
the error message is false. -/
theorem answerQuestion_fallback_lacks_reason :
    RAGOrchestrator.answerQuestion ["single".toList, "multi".toList] "single".toList
        (Except.ok "ans".toList) (Except.error "boom".toList) (some "multi".toList)
      = Except.ok { answer := "ans".toList, mode := "single".toList,
                    strategyName := "Single Agent".toList, fallback := some true,
                    originalMode := some "multi".toList, fallbackReason := none }
    ∧ ¬ RAGOrchestrator.answerQuestion ["single".toList, "multi".toList] "single".toList
        (Except.ok "ans".toList) (Except.error "boom".toList) (some "multi".toList)
      = Except.ok { answer := "ans".toList, mode := "single".toList,
                    strategyName := "Single Agent".toList, fallback := some true,
                    originalMode := some "multi".toList,
                    fallbackReason := some "boom".toList } :=
  ⟨by decide, by decide⟩

theorem validatorIssues_report_eq_nil_iff (content : Str) :
    validatorIssues "report".toList content = [] ↔
      (trim content ≠ []
        ∧ (∀ line ∈ splitOnChar '\n' content, trim line ≠ [] →
            (trim line).take 2 = "• ".toList)
        ∧ ∀ c ∈ content, c ≠ '•' → ¬ c ∈ mdChars) := by
  simp only [validatorIssues, List.append_eq_nil, ite_eq_right_iff,
    List.cons_ne_nil, imp_false, List.any_eq_true, List.mem_filter,
    decide_eq_true_eq, not_exists, not_and, not_not, ne_eq]
  simp only [if_true, List.append_eq_nil, ite_eq_right_iff, List.cons_ne_nil,
    imp_false, List.any_eq_true, List.mem_filter, decide_eq_true_eq,
    not_exists, not_and, not_not, ne_eq, and_imp]

theorem validatorIssues_question_eq_nil_iff (content : Str) :
    validatorIssues "question".toList content = [] ↔
      (trim content ≠ [] ∧ 1 ≤ (sentencePieces content).length
        ∧ (sentencePieces content).length ≤ 4) := by
  have hmode : ("question".toList = "report".toList) = False :=
    eq_false (by decide)
  simp only [validatorIssues, hmode, if_false, List.append_eq_nil,
    ite_eq_right_iff, List.cons_ne_nil, imp_false, not_or, Nat.not_lt, ne_eq]

/-- C8 amended theorem: the Validator is a single check-and-repair pass —
an issue-free draft passes through unchanged with no completion call, an
issue-laden draft is replaced by the one corrective completion's output
with no re-validation; report mode is issue-free exactly when the content
is non-blank, every non-blank line starts with bullet-space, and no
markdown character occurs outside bullet symbols; question mode is
issue-free exactly when the content is non-blank AND the naive sentence
count is between 1 and 4 (the non-blank requirement applies in question
mode too: see the counterexample). -/
theorem validator_single_pass (mode content corrected : Str) :
    (validatorIssues mode content = [] →
      validatorAgent mode content corrected = ({ content := content, issues := [] }, 0))
    ∧ (validatorIssues mode content ≠ [] →
      validatorAgent mode content corrected
        = ({ content := corrected, issues := validatorIssues mode content }, 1))
    ∧ (validatorIssues "report".toList content = [] ↔
        (trim content ≠ []
          ∧ (∀ line ∈ splitOnChar '\n' content, trim line ≠ [] →
              (trim line).take 2 = "• ".toList)
          ∧ ∀ c ∈ content, c ≠ '•' → ¬ c ∈ mdChars))
    ∧ (validatorIssues "question".toList content = [] ↔
        (trim content ≠ [] ∧ 1 ≤ (sentencePieces content).length
          ∧ (sentencePieces content).length ≤ 4)) := by
  refine ⟨?_, ?_, validatorIssues_report_eq_nil_iff content,
    validatorIssues_question_eq_nil_iff content⟩
  · intro h
    simp [validatorAgent, h]
  · intro h
    simp [validatorAgent, h]

/-- C8 witness: a concrete run of the amended theorem on an issue-free
report draft — returned unchanged, zero completion calls. -/
theorem validator_single_pass_witness :
    validatorIssues "report".toList "• a".toList = []
    ∧ validatorAgent "report".toList "• a".toList "zzz".toList
        = ({ content := "• a".toList, issues := [] }, 0) :=
  ⟨by decide,
    (validator_single_pass "report".toList "• a".toList "zzz".toList).1 (by decide)⟩

/-- C8 counterexample: a whitespace-only question draft splits into exactly
1 naive sentence — inside the claimed 1..4 range, so the claim says it
passes through with no completion call — yet the validator's empty-content
check (which applies in question mode too) flags it, and one corrective
completion replaces the draft. -/
theorem validator_question_blank_draft_corrected :
    (sentencePieces " ".toList).length = 1
    ∧ validatorIssues "question".toList " ".toList = ["Empty content generated.".toList]
    ∧ (validatorAgent "question".toList " ".toList "fix".toList).2 = 1
    ∧ (validatorAgent "question".toList " ".toList "fix".toList).1.content = "fix".toList :=
  ⟨by decide, by decide, by decide, by decide⟩

/-- C10 theorem: both conversation-key builders substitute the literal
`unknown` for an absent or empty company name (so all such requests share
one ledger key) and lowercase the company name, so names differing only in
letter case produce the same key. -/
theorem conversationKey_normalized :
    (aiProcessor.getConversationKey none = "company:unknown".toList
      ∧ aiProcessor.getConversationKey (some []) = "company:unknown".toList
      ∧ SingleAgentStrategy.getConversationKey none = "single:unknown".toList
      ∧ SingleAgentStrategy.getConversationKey (some []) = "single:unknown".toList)
    ∧ (∀ s : Str, s ≠ [] →
        aiProcessor.getConversationKey (some s) = "company:".toList ++ toLowerStr s
        ∧ SingleAgentStrategy.getConversationKey (some s) = "single:".toList ++ toLowerStr s)
    ∧ (∀ s t : Str, toLowerStr s = toLowerStr t →
        aiProcessor.getConversationKey (some s) = aiProcessor.getConversationKey (some t)
        ∧ SingleAgentStrategy.getConversationKey (some s)
            = SingleAgentStrategy.getConversationKey (some t)) := by
  refine ⟨⟨by decide, by decide, by decide, by decide⟩, ?_, ?_⟩
  · intro s hs
    constructor
    · simp [aiProcessor.getConversationKey, hs]
    · simp [SingleAgentStrategy.getConversationKey, hs]
  · intro s t hst
    by_cases hs : s = []
    · have ht : t = [] := by
        subst hs
        cases t with
        | nil => rfl
        | cons a b => simp [toLowerStr] at hst
      subst hs; subst ht
      exact ⟨rfl, rfl⟩
    · have ht : t ≠ [] := by
        intro ht
        subst ht
        simp only [toLowerStr, List.map_nil, List.map_eq_nil_iff] at hst
        exact hs hst
      constructor
      · simp [aiProcessor.getConversationKey, hs, ht, hst]
      · simp [SingleAgentStrategy.getConversationKey, hs, ht, hst]

/-- C10 witness: a concrete run — ACME and acme share one key. -/
theorem conversationKey_normalized_witness :
    toLowerStr "ACME".toList = toLowerStr "acme".toList
    ∧ aiProcessor.getConversationKey (some "ACME".toList)
        = aiProcessor.getConversationKey (some "acme".toList) :=
  ⟨by decide, (conversationKey_normalized.2.2 "ACME".toList "acme".toList (by decide)).1⟩
